import Mathlib

/-!
Verification of the price-synchronization and benchmark engine of the
shah-ahad-capital repository.

The repository contains several near-duplicate variants of the same
synchronization cycle.  Each definition below is a shallow embedding of one
concrete piece of JavaScript source, with the file and line range named in
its doc comment.  Prices are modelled as rational numbers; the JavaScript
objects used as string-keyed maps are modelled as association lists with
JavaScript assignment semantics (replace the existing entry, otherwise
append).  A `parseFloat`/`parseInt` result of `NaN` is modelled as `none`.
-/

set_option autoImplicit false

/-- Lookup in a string-keyed map (JavaScript `obj[key]`, `undefined ↦ none`). -/
def lookupKey {α : Type} : List (String × α) → String → Option α
  | [], _ => none
  | (k, v) :: rest, s => if k = s then some v else lookupKey rest s

/-- JavaScript assignment `obj[key] = v`: replace the entry if the key is
present, otherwise append a new entry. -/
def setKey {α : Type} : List (String × α) → String → α → List (String × α)
  | [], s, v => [(s, v)]
  | (k, w) :: rest, s, v =>
    if k = s then (s, v) :: rest else (k, w) :: setKey rest s v

theorem lookupKey_setKey_same {α : Type} (m : List (String × α)) (k : String) (v : α) :
    lookupKey (setKey m k v) k = some v := by
  induction m with
  | nil => simp [setKey, lookupKey]
  | cons hd tl ih =>
    obtain ⟨k', v'⟩ := hd
    by_cases h : k' = k
    · simp [setKey, h, lookupKey]
    · simp [setKey, h, lookupKey, ih]

theorem lookupKey_setKey_ne {α : Type} (m : List (String × α)) (k s : String) (v : α)
    (h : k ≠ s) : lookupKey (setKey m k v) s = lookupKey m s := by
  induction m with
  | nil => simp [setKey, lookupKey, h]
  | cons hd tl ih =>
    obtain ⟨k', v'⟩ := hd
    by_cases hk : k' = k
    · subst hk
      simp [setKey, lookupKey, h]
    · simp [setKey, hk, lookupKey, ih]

theorem setKey_ne_of_lookup_ne {α : Type} (m : List (String × α)) (k : String) (v : α)
    (h : lookupKey m k ≠ some v) : setKey m k v ≠ m := by
  intro he
  apply h
  rw [← he, lookupKey_setKey_same]

/-- An open position as read from the `investments` record (the fields the
synchronization cycle uses: `symbol`, `shares`, `price`). -/
structure Investment where
  symbol : String
  shares : ℚ
  price : ℚ
  deriving DecidableEq

/-- First-occurrence deduplication, mirroring `[...new Set(list)]` in
JavaScript (a `Set` preserves first-insertion order). -/
def jsSetDedup : List String → List String
  | [] => []
  | a :: rest => a :: List.filter (fun b => b ≠ a) (jsSetDedup rest)

theorem mem_jsSetDedup (s : String) (l : List String) :
    s ∈ jsSetDedup l ↔ s ∈ l := by
  induction l with
  | nil => simp [jsSetDedup]
  | cons a rest ih =>
    simp only [jsSetDedup, List.mem_cons, List.mem_filter]
    constructor
    · rintro (rfl | ⟨hm, _⟩)
      · exact Or.inl rfl
      · exact Or.inr (ih.mp hm)
    · rintro (rfl | hm)
      · exact Or.inl rfl
      · by_cases he : s = a
        · exact Or.inl he
        · exact Or.inr ⟨ih.mpr hm, by simpa using he⟩

/-- The distinct symbols of the open positions:
`[...new Set(Object.values(investments).map(inv => inv.symbol))]`. -/
def symbolsOfInvs (invs : List Investment) : List String :=
  jsSetDedup (invs.map (fun i => i.symbol))

/-- The symbol list with the benchmark ticker appended:
`if (!symbols.includes('SPY')) symbols.push('SPY')`
(src/unnamed/part_003 lines 40-41, src/update-script.js lines 50-51). -/
def symbolsWithSPY (invs : List Investment) : List String :=
  if "SPY" ∈ symbolsOfInvs invs then symbolsOfInvs invs
  else symbolsOfInvs invs ++ ["SPY"]

/-- The merge-based price-cache update of src/unnamed/part_004 lines 32-52:
start from the previously cached snapshot and overwrite an entry only when
the freshly fetched price is strictly positive. -/
def mergePrices (cache : List (String × ℚ)) (symbols : List String)
    (fetch : String → ℚ) : List (String × ℚ) :=
  symbols.foldl
    (fun acc sym => if 0 < fetch sym then setKey acc sym (fetch sym) else acc)
    cache

/-- The snapshot written by src/update-script.js lines 53-58: a fresh object
is filled with `priceCache[symbol] = await fetchLivePrice(symbol, ...)` for
every symbol, unconditionally (zero results included), and the prior
snapshot is never read. -/
def updateScriptPriceCache (invs : List Investment) (fetch : String → ℚ) :
    List (String × ℚ) :=
  (symbolsWithSPY invs).foldl (fun acc sym => setKey acc sym (fetch sym)) []

/-- C1 (amended): in the merge-based cycle of src/unnamed/part_004, the
written snapshot maps a symbol to the fetched price when it is strictly
positive and otherwise keeps the prior snapshot entry (absent entries stay
absent); in particular a symbol present before is never removed and no entry
is ever overwritten with a zero or negative fetch result. -/
theorem mergePrices_spec (cache : List (String × ℚ)) (symbols : List String)
    (fetch : String → ℚ) (s : String) :
    lookupKey (mergePrices cache symbols fetch) s =
      if s ∈ symbols ∧ 0 < fetch s then some (fetch s) else lookupKey cache s := by
  induction symbols generalizing cache with
  | nil => simp [mergePrices]
  | cons a tl ih =>
    have hstep : mergePrices cache (a :: tl) fetch =
        mergePrices (if 0 < fetch a then setKey cache a (fetch a) else cache) tl fetch := rfl
    rw [hstep, ih]
    by_cases htl : s ∈ tl ∧ 0 < fetch s
    · simp [htl, List.mem_cons, htl.1, htl.2]
    · rw [if_neg htl]
      by_cases hsa : s = a
      · subst hsa
        by_cases hpos : 0 < fetch s
        · simp [hpos, lookupKey_setKey_same]
        · simp [hpos]
      · have hne : a ≠ s := fun h => hsa h.symm
        by_cases hpos : 0 < fetch a
        · rw [if_pos hpos, lookupKey_setKey_ne _ _ _ _ hne]
          have : ¬(s ∈ a :: tl ∧ 0 < fetch s) := by
            rintro ⟨hm, hp⟩
            rcases List.mem_cons.mp hm with h | h
            · exact hsa h
            · exact htl ⟨h, hp⟩
          rw [if_neg this]
        · rw [if_neg hpos]
          have : ¬(s ∈ a :: tl ∧ 0 < fetch s) := by
            rintro ⟨hm, hp⟩
            rcases List.mem_cons.mp hm with h | h
            · exact hsa h
            · exact htl ⟨h, hp⟩
          rw [if_neg this]

/-- C1 counterexample: the cycle of src/update-script.js violates the claim.
With prior snapshot `{MSFT: 290}`, one open AAPL position, and fetch
outcomes `AAPL ↦ 0` (failed) and `SPY ↦ 600`, the written snapshot drops the
`MSFT` entry that was present before and records the zero outcome for
`AAPL`, instead of mapping `MSFT` to `290` and leaving `AAPL` absent. -/
theorem updateScriptPriceCache_counterexample :
    lookupKey [(("MSFT" : String), (290 : ℚ))] "MSFT" = some 290 ∧
    lookupKey (updateScriptPriceCache [⟨"AAPL", 10, 150⟩]
      (fun s => if s = "SPY" then 600 else 0)) "MSFT" = none ∧
    lookupKey (updateScriptPriceCache [⟨"AAPL", 10, 150⟩]
      (fun s => if s = "SPY" then 600 else 0)) "AAPL" = some 0 := by
  refine ⟨rfl, ?_, ?_⟩ <;> decide

/-- The historical-close lookback of src/unnamed/part_009 lines 15-33
(`fetchHistoricalPrice`): starting at the anchor day, probe up to 7
consecutive calendar days walking backward one day at a time, return the
first closing price found, and 0 when none of the 7 days has one.  Days are
modelled as integer day numbers; `avail d` is the closing price the upstream
reports for day `d` (`none` for weekends, holidays, transport errors and
non-success responses, which the source treats identically by stepping to
the previous day). -/
def lookbackLoop : Nat → Int → (Int → Option ℚ) → ℚ
  | 0, _, _ => 0
  | Nat.succ n, d, avail =>
    match avail d with
    | some c => c
    | none => lookbackLoop n (d - 1) avail

/-- `fetchHistoricalPrice(symbol, dateStr, apiKey)` with the 7-iteration
`for` loop of src/unnamed/part_009 lines 16-31. -/
def fetchHistoricalPrice (anchorDay : Int) (avail : Int → Option ℚ) : ℚ :=
  lookbackLoop 7 anchorDay avail

/-- The inception-cache resolution step of src/unnamed/part_009 lines
99-111: `let v = inceptionCache[key] || 0; if (v === 0) { v = await
fetchHistoricalPrice(...); if (v > 0) await db.ref(...).set(v); }`.  The
result is the resolved price, whether the historical-price network call was
issued, and the cache afterwards.  `fetched` is the value the network call
would return. -/
def resolveInception (cache : List (String × ℚ)) (key : String) (fetched : ℚ) :
    ℚ × Bool × List (String × ℚ) :=
  let cached := (lookupKey cache key).getD 0
  if cached = 0 then
    (fetched, true, if 0 < fetched then setKey cache key fetched else cache)
  else
    (cached, false, cache)

/-- The full resolve of one anchor in src/unnamed/part_009 lines 102-111,
with the network call instantiated to the lookback of lines 15-33. -/
def resolveHistorical (cache : List (String × ℚ)) (key : String)
    (anchorDay : Int) (avail : Int → Option ℚ) : ℚ × List (String × ℚ) :=
  let r := resolveInception cache key (fetchHistoricalPrice anchorDay avail)
  (r.1, r.2.2)

/-- C2: `resolveInception` is idempotent.  If a resolve returned a positive
price `p` (whether from the cache or from a fresh network call), every later
resolve of the same key returns the same `p`, issues no network call, and
leaves the cache unchanged — regardless of what a second network call would
have returned. -/
theorem resolveInception_idempotent (cache : List (String × ℚ)) (key : String)
    (f₁ f₂ p : ℚ) (called : Bool) (cache' : List (String × ℚ))
    (h : resolveInception cache key f₁ = (p, called, cache'))
    (hp : 0 < p) :
    resolveInception cache' key f₂ = (p, false, cache') := by
  simp only [resolveInception] at h ⊢
  by_cases hc : (lookupKey cache key).getD 0 = 0
  · rw [if_pos hc] at h
    injection h with h1 h23
    injection h23 with h2 h3
    subst h1
    subst h3
    rw [if_pos hp]
    simp [lookupKey_setKey_same, hp.ne']
  · rw [if_neg hc] at h
    injection h with h1 h23
    injection h23 with h2 h3
    subst h1
    subst h3
    rw [if_neg hc]

/-- C2 witness: after a first resolve of the key `05-10-2025` on an empty
cache fetched the price 500, a second resolve returns 500 from the cache
without a network call, whatever the upstream would answer (here 777). -/
theorem resolveInception_idempotent_witness :
    resolveInception [(("05-10-2025" : String), (500 : ℚ))] "05-10-2025" 777 =
      (500, false, [(("05-10-2025" : String), (500 : ℚ))]) :=
  resolveInception_idempotent [] "05-10-2025" 500 777 500 true
    [(("05-10-2025" : String), (500 : ℚ))] (by decide) (by decide)

theorem lookbackLoop_eq_zero_of_none (n : Nat) (d : Int) (avail : Int → Option ℚ)
    (h : ∀ i : Nat, i < n → avail (d - i) = none) : lookbackLoop n d avail = 0 := by
  induction n generalizing d with
  | zero => rfl
  | succ n ih =>
    have h0 : avail d = none := by simpa using h 0 (Nat.succ_pos n)
    have hrec : ∀ i : Nat, i < n → avail (d - 1 - i) = none := by
      intro i hi
      have hcast : d - 1 - (i : Int) = d - ((i + 1 : Nat) : Int) := by push_cast; ring
      rw [hcast]
      exact h (i + 1) (Nat.succ_lt_succ hi)
    simp [lookbackLoop, h0, ih (d - 1) hrec]

theorem lookbackLoop_pos (n : Nat) (d : Int) (avail : Int → Option ℚ)
    (hpos : ∀ dd c, avail dd = some c → 0 < c)
    (h : ∃ i : Nat, i < n ∧ (avail (d - i)).isSome) : 0 < lookbackLoop n d avail := by
  induction n generalizing d with
  | zero =>
    obtain ⟨i, hi, -⟩ := h
    exact absurd hi (Nat.not_lt_zero i)
  | succ n ih =>
    cases hd : avail d with
    | some c =>
      simpa [lookbackLoop, hd] using hpos d c hd
    | none =>
      obtain ⟨i, hi, hsome⟩ := h
      cases i with
      | zero =>
        rw [show d - ((0 : Nat) : Int) = d by simp, hd] at hsome
        cases hsome
      | succ j =>
        have hcast : d - ((j + 1 : Nat) : Int) = d - 1 - (j : Int) := by push_cast; ring
        rw [hcast] at hsome
        have := ih (d - 1) ⟨j, Nat.lt_of_succ_lt_succ hi, hsome⟩
        simpa [lookbackLoop, hd] using this

theorem lookbackLoop_congr (n : Nat) (d : Int) (avail avail' : Int → Option ℚ)
    (h : ∀ i : Nat, i < n → avail' (d - i) = avail (d - i)) :
    lookbackLoop n d avail' = lookbackLoop n d avail := by
  induction n generalizing d with
  | zero => rfl
  | succ n ih =>
    have h0 : avail' d = avail d := by simpa using h 0 (Nat.succ_pos n)
    have hrec : ∀ i : Nat, i < n → avail' (d - 1 - i) = avail (d - 1 - i) := by
      intro i hi
      have hcast : d - 1 - (i : Int) = d - ((i + 1 : Nat) : Int) := by push_cast; ring
      rw [hcast]
      exact h (i + 1) (Nat.succ_lt_succ hi)
    simp only [lookbackLoop, h0]
    cases avail d with
    | some c => rfl
    | none => exact ih (d - 1) hrec

/-- C3: on a cache miss, the historical lookback of src/unnamed/part_009
probes only the 7 calendar days walking back from the anchor (the result
depends on nothing else), returns 0 exactly when none of those days has an
available close (closes being positive), writes nothing to the
InceptionCache in that case, and on a found positive price returns with that
price written into the cache under the anchor key. -/
theorem resolveHistorical_spec (cache : List (String × ℚ)) (key : String)
    (anchorDay : Int) (avail : Int → Option ℚ)
    (hpos : ∀ d c, avail d = some c → 0 < c)
    (hmiss : (lookupKey cache key).getD 0 = 0) :
    (∀ avail' : Int → Option ℚ,
        (∀ i : Nat, i < 7 → avail' (anchorDay - i) = avail (anchorDay - i)) →
        fetchHistoricalPrice anchorDay avail' = fetchHistoricalPrice anchorDay avail) ∧
    (fetchHistoricalPrice anchorDay avail = 0 ↔
        ∀ i : Nat, i < 7 → avail (anchorDay - i) = none) ∧
    (fetchHistoricalPrice anchorDay avail = 0 →
        resolveHistorical cache key anchorDay avail = (0, cache)) ∧
    (0 < fetchHistoricalPrice anchorDay avail →
        resolveHistorical cache key anchorDay avail =
          (fetchHistoricalPrice anchorDay avail,
            setKey cache key (fetchHistoricalPrice anchorDay avail)) ∧
        lookupKey (setKey cache key (fetchHistoricalPrice anchorDay avail)) key =
          some (fetchHistoricalPrice anchorDay avail)) := by
  refine ⟨?_, ⟨?_, ?_⟩, ?_, ?_⟩
  · intro avail' hagree
    exact lookbackLoop_congr 7 anchorDay avail avail' hagree
  · intro hzero i hi
    by_contra hne
    have hsome : (avail (anchorDay - i)).isSome := by
      cases hx : avail (anchorDay - i) with
      | some c => rfl
      | none => exact absurd hx hne
    have := lookbackLoop_pos 7 anchorDay avail hpos ⟨i, hi, hsome⟩
    rw [fetchHistoricalPrice] at hzero
    rw [hzero] at this
    exact lt_irrefl 0 this
  · intro hnone
    exact lookbackLoop_eq_zero_of_none 7 anchorDay avail hnone
  · intro hzero
    simp [resolveHistorical, resolveInception, hmiss, fetchHistoricalPrice] at hzero ⊢
    simp [hzero]
  · intro hgt
    refine ⟨?_, lookupKey_setKey_same cache key _⟩
    simp [resolveHistorical, resolveInception, hmiss, if_pos hgt]

/-- A concrete availability oracle for the C3 witness: only day `-2` (two
calendar days before the anchor day `0`) has a close, of 5. -/
def availDemo : Int → Option ℚ :=
  fun d => if d = -2 then some 5 else none

/-- C3 witness: with an empty cache and the close only available two days
back, the resolver finds 5 within the lookback window and writes it into the
cache under the anchor key before returning. -/
theorem resolveHistorical_spec_witness :
    resolveHistorical [] "14-07-2025" 0 availDemo =
      (5, [(("14-07-2025" : String), (5 : ℚ))]) := by
  have hpos : ∀ d c, availDemo d = some c → 0 < c := by
    intro d c hc
    simp only [availDemo] at hc
    split at hc
    · rw [Option.some.injEq] at hc
      rw [← hc]
      norm_num
    · cases hc
  have hf : fetchHistoricalPrice 0 availDemo = 5 := by decide
  have h := (resolveHistorical_spec [] "14-07-2025" 0 availDemo hpos rfl).2.2.2
    (by rw [hf]; norm_num)
  rw [hf] at h
  simpa [setKey] using h.1

/-- One anchor of the written benchmark result: `{ our, spy }`. -/
structure AnchorReturns where
  our : ℚ
  spy : ℚ
  deriving DecidableEq

/-- The whole `benchmarkCache` document: `{ current, allTime }`. -/
structure BenchmarkCache where
  current : AnchorReturns
  allTime : AnchorReturns
  deriving DecidableEq

/-- The benchmark computation of src/unnamed/part_009 lines 113-126: the
"current strategy" anchor divides by `currentInvested`, the "all time"
anchor by the fixed constant `TOTAL_CAPITAL = 172.00`; each anchor stays
`{0,0}` unless its guard (positive base capital where applicable, positive
benchmark start and current price) holds. -/
def benchmarkCalcPart009 (currentInvested currentUnrealizedPL allTimeTotalPL
    spyCurrentStart spyAllTimeStart spyCurrentPrice : ℚ) : BenchmarkCache :=
  { current :=
      if 0 < currentInvested ∧ 0 < spyCurrentStart ∧ 0 < spyCurrentPrice then
        ⟨currentUnrealizedPL / currentInvested * 100,
          (spyCurrentPrice - spyCurrentStart) / spyCurrentStart * 100⟩
      else ⟨0, 0⟩,
    allTime :=
      if 0 < spyAllTimeStart ∧ 0 < spyCurrentPrice then
        ⟨allTimeTotalPL / 172 * 100,
          (spyCurrentPrice - spyAllTimeStart) / spyAllTimeStart * 100⟩
      else ⟨0, 0⟩ }

/-- The benchmark computation of src/unnamed/part_002 lines 160-176: both
anchors divide by `totalInvested` and both guards require `totalInvested >
0` in addition to a positive start and current benchmark price. -/
def benchmarkCalcPart002 (totalInvested currentUnrealizedPL allTimeTotalPL
    spyCurrentStart spyAllTimeStart spyCurrentPrice : ℚ) : BenchmarkCache :=
  { current :=
      if 0 < totalInvested ∧ 0 < spyCurrentStart ∧ 0 < spyCurrentPrice then
        ⟨currentUnrealizedPL / totalInvested * 100,
          (spyCurrentPrice - spyCurrentStart) / spyCurrentStart * 100⟩
      else ⟨0, 0⟩,
    allTime :=
      if 0 < totalInvested ∧ 0 < spyAllTimeStart ∧ 0 < spyCurrentPrice then
        ⟨allTimeTotalPL / totalInvested * 100,
          (spyCurrentPrice - spyAllTimeStart) / spyAllTimeStart * 100⟩
      else ⟨0, 0⟩ }

/-- C4: in both benchmark calculators, any anchor whose base capital is 0 or
whose benchmark start price is 0 (an unresolved inception resolves to 0) is
written as `{0, 0}`, for arbitrary input magnitudes; and every anchor field
is either the guarded 0 or a quotient whose divisor is strictly positive, so
no division by zero — the float `NaN`/`Infinity` sources — ever occurs. -/
theorem benchmarkCalc_guarded (ci cu ap s1 s2 cp : ℚ) :
    (ci = 0 ∨ s1 = 0 → (benchmarkCalcPart009 ci cu ap s1 s2 cp).current = ⟨0, 0⟩) ∧
    (s2 = 0 → (benchmarkCalcPart009 ci cu ap s1 s2 cp).allTime = ⟨0, 0⟩) ∧
    (ci = 0 ∨ s1 = 0 → (benchmarkCalcPart002 ci cu ap s1 s2 cp).current = ⟨0, 0⟩) ∧
    (ci = 0 ∨ s2 = 0 → (benchmarkCalcPart002 ci cu ap s1 s2 cp).allTime = ⟨0, 0⟩) ∧
    ((benchmarkCalcPart009 ci cu ap s1 s2 cp).current = ⟨0, 0⟩ ∨
      (0 < ci ∧ 0 < s1 ∧ (benchmarkCalcPart009 ci cu ap s1 s2 cp).current =
        ⟨cu / ci * 100, (cp - s1) / s1 * 100⟩)) ∧
    ((benchmarkCalcPart009 ci cu ap s1 s2 cp).allTime = ⟨0, 0⟩ ∨
      (0 < s2 ∧ (0 : ℚ) < 172 ∧ (benchmarkCalcPart009 ci cu ap s1 s2 cp).allTime =
        ⟨ap / 172 * 100, (cp - s2) / s2 * 100⟩)) ∧
    ((benchmarkCalcPart002 ci cu ap s1 s2 cp).current = ⟨0, 0⟩ ∨
      (0 < ci ∧ 0 < s1 ∧ (benchmarkCalcPart002 ci cu ap s1 s2 cp).current =
        ⟨cu / ci * 100, (cp - s1) / s1 * 100⟩)) ∧
    ((benchmarkCalcPart002 ci cu ap s1 s2 cp).allTime = ⟨0, 0⟩ ∨
      (0 < ci ∧ 0 < s2 ∧ (benchmarkCalcPart002 ci cu ap s1 s2 cp).allTime =
        ⟨ap / ci * 100, (cp - s2) / s2 * 100⟩)) := by
  refine ⟨?_, ?_, ?_, ?_, ?_, ?_, ?_, ?_⟩
  · intro h
    rw [benchmarkCalcPart009]
    refine if_neg ?_
    rintro ⟨h1, h2, -⟩
    rcases h with rfl | rfl
    · exact lt_irrefl 0 h1
    · exact lt_irrefl 0 h2
  · intro h
    rw [benchmarkCalcPart009]
    refine if_neg ?_
    rintro ⟨h1, -⟩
    rw [h] at h1
    exact lt_irrefl 0 h1
  · intro h
    rw [benchmarkCalcPart002]
    refine if_neg ?_
    rintro ⟨h1, h2, -⟩
    rcases h with rfl | rfl
    · exact lt_irrefl 0 h1
    · exact lt_irrefl 0 h2
  · intro h
    rw [benchmarkCalcPart002]
    refine if_neg ?_
    rintro ⟨h1, h2, -⟩
    rcases h with rfl | rfl
    · exact lt_irrefl 0 h1
    · exact lt_irrefl 0 h2
  · rw [benchmarkCalcPart009]
    by_cases hg : 0 < ci ∧ 0 < s1 ∧ 0 < cp
    · exact Or.inr ⟨hg.1, hg.2.1, if_pos hg⟩
    · exact Or.inl (if_neg hg)
  · rw [benchmarkCalcPart009]
    by_cases hg : 0 < s2 ∧ 0 < cp
    · exact Or.inr ⟨hg.1, by norm_num, if_pos hg⟩
    · exact Or.inl (if_neg hg)
  · rw [benchmarkCalcPart002]
    by_cases hg : 0 < ci ∧ 0 < s1 ∧ 0 < cp
    · exact Or.inr ⟨hg.1, hg.2.1, if_pos hg⟩
    · exact Or.inl (if_neg hg)
  · rw [benchmarkCalcPart002]
    by_cases hg : 0 < ci ∧ 0 < s2 ∧ 0 < cp
    · exact Or.inr ⟨hg.1, hg.2.1, if_pos hg⟩
    · exact Or.inl (if_neg hg)

/-- C4 witness: with zero base capital the "current" anchors of both
calculators are written as `{0,0}`, and with a zero all-time start price the
"all time" anchors are too, at the concrete inputs
`(0, 55, -7, 430, 0, 450)`. -/
theorem benchmarkCalc_guarded_witness :
    (benchmarkCalcPart009 0 55 (-7) 430 0 450).current = ⟨0, 0⟩ ∧
    (benchmarkCalcPart009 0 55 (-7) 430 0 450).allTime = ⟨0, 0⟩ ∧
    (benchmarkCalcPart002 0 55 (-7) 430 0 450).current = ⟨0, 0⟩ ∧
    (benchmarkCalcPart002 0 55 (-7) 430 0 450).allTime = ⟨0, 0⟩ :=
  ⟨(benchmarkCalc_guarded 0 55 (-7) 430 0 450).1 (Or.inl rfl),
   (benchmarkCalc_guarded 0 55 (-7) 430 0 450).2.1 rfl,
   (benchmarkCalc_guarded 0 55 (-7) 430 0 450).2.2.1 (Or.inl rfl),
   (benchmarkCalc_guarded 0 55 (-7) 430 0 450).2.2.2.1 (Or.inl rfl)⟩

/-- `totalInvested += inv.shares * inv.price` accumulated over the open
positions (src/unnamed/part_003 lines 59-64). -/
def totalInvestedOf (invs : List Investment) : ℚ :=
  (invs.map (fun i => i.shares * i.price)).sum

/-- `currentVal += inv.shares * (priceCache[inv.symbol] || 0)` accumulated
over the open positions (src/unnamed/part_003 lines 59-64). -/
def currentValueOf (invs : List Investment) (cache : List (String × ℚ)) : ℚ :=
  (invs.map (fun i => i.shares * ((lookupKey cache i.symbol).getD 0))).sum

/-- `Object.values(realized).reduce((sum, trade) => sum + (trade.pl || 0), 0)`
(src/unnamed/part_003 line 67); a missing `pl` field is `none`. -/
def totalRealizedPLOf (pls : List (Option ℚ)) : ℚ :=
  (pls.map (fun o => o.getD 0)).sum

/-- The benchmark step of src/unnamed/part_003 lines 58-99: the "current
strategy" anchor (key `05-10-2025`) divides the unrealized P&L by the
currently invested capital; the "all time" anchor (key `14-07-2025`) divides
the realized-plus-unrealized P&L by the hardcoded `INITIAL_CAPITAL = 160.00`
and is computed whenever its benchmark start and current price are positive,
with or without open positions. -/
def runBenchmarksPart003 (invs : List Investment) (realizedPLs : List (Option ℚ))
    (inceptionCache priceCache : List (String × ℚ)) : BenchmarkCache :=
  let currentInvested := totalInvestedOf invs
  let currentVal := currentValueOf invs priceCache
  let totalRealizedPL := totalRealizedPLOf realizedPLs
  let currentUnrealizedPL := currentVal - currentInvested
  let spyCurrentStart := (lookupKey inceptionCache "05-10-2025").getD 0
  let spyAllTimeStart := (lookupKey inceptionCache "14-07-2025").getD 0
  let spyCurrentPrice := (lookupKey priceCache "SPY").getD 0
  let allTimeTotalPL := totalRealizedPL + currentUnrealizedPL
  { current :=
      if 0 < currentInvested ∧ 0 < spyCurrentStart ∧ 0 < spyCurrentPrice then
        ⟨currentUnrealizedPL / currentInvested * 100,
          (spyCurrentPrice - spyCurrentStart) / spyCurrentStart * 100⟩
      else ⟨0, 0⟩,
    allTime :=
      if 0 < spyAllTimeStart ∧ 0 < spyCurrentPrice then
        ⟨allTimeTotalPL / 160 * 100,
          (spyCurrentPrice - spyAllTimeStart) / spyAllTimeStart * 100⟩
      else ⟨0, 0⟩ }

/-- C7: with zero open positions the part_003 cycle writes the "current
strategy" anchor as `{0,0}` whatever the archived history and caches hold,
while the "all time" anchor is still computed from the summed realized P&L
and the fixed starting capital 160 (guarded by a positive resolved start
price and current benchmark price). -/
theorem runBenchmarksPart003_empty (r : List (Option ℚ))
    (inc pc : List (String × ℚ)) :
    (runBenchmarksPart003 [] r inc pc).current = ⟨0, 0⟩ ∧
    (runBenchmarksPart003 [] r inc pc).allTime =
      (if 0 < (lookupKey inc "14-07-2025").getD 0 ∧ 0 < (lookupKey pc "SPY").getD 0 then
        ⟨totalRealizedPLOf r / 160 * 100,
          ((lookupKey pc "SPY").getD 0 - (lookupKey inc "14-07-2025").getD 0) /
            (lookupKey inc "14-07-2025").getD 0 * 100⟩
      else ⟨0, 0⟩) := by
  constructor
  · simp [runBenchmarksPart003, totalInvestedOf, currentValueOf]
  · simp [runBenchmarksPart003, totalInvestedOf, currentValueOf]

/-- The symbols the part_003 cycle fetches a current quote for
(src/unnamed/part_003 lines 36-56): with open positions, their distinct
symbols with SPY appended when missing; with none (`investments` is null) it
still fetches the single benchmark symbol SPY. -/
def fetchedSymbolsPart003 (invs : List Investment) : List String :=
  if invs.isEmpty then ["SPY"] else symbolsWithSPY invs

/-- The symbols the price-update job of src/unnamed/part_000 fetches
(lines 37-58): with no investments the job returns before fetching anything,
and the symbol list never has the benchmark ticker appended. -/
def fetchedSymbolsPart000 (invs : List Investment) : List String :=
  if invs.isEmpty then [] else symbolsOfInvs invs

/-- C8 (amended): in the part_003 cycle, the fetched symbols are exactly the
symbols of the open positions together with the benchmark symbol SPY, and
SPY is fetched even with zero open positions. -/
theorem fetchedSymbolsPart003_spec (invs : List Investment) (s : String) :
    s ∈ fetchedSymbolsPart003 invs ↔
      s ∈ invs.map (fun i => i.symbol) ∨ s = "SPY" := by
  rw [fetchedSymbolsPart003]
  by_cases he : invs.isEmpty
  · rw [if_pos he, List.isEmpty_iff.mp he]
    simp
  · rw [if_neg he, symbolsWithSPY]
    by_cases hspy : "SPY" ∈ symbolsOfInvs invs
    · rw [if_pos hspy]
      rw [symbolsOfInvs, mem_jsSetDedup] at hspy ⊢
      constructor
      · exact Or.inl
      · rintro (hm | rfl)
        · exact hm
        · exact hspy
    · rw [if_neg hspy, List.mem_append]
      rw [symbolsOfInvs, mem_jsSetDedup]
      simp

/-- C8 counterexample: the price-update job of src/unnamed/part_000 does not
fetch the benchmark symbol: with a single open AAPL position its symbol list
omits SPY, and with zero open positions it fetches nothing at all. -/
theorem fetchedSymbolsPart000_counterexample :
    ¬ ("SPY" ∈ fetchedSymbolsPart000 [⟨"AAPL", 10, 150⟩]) ∧
    fetchedSymbolsPart000 [] = [] := by
  constructor
  · decide
  · rfl

/-- An open investment as stored under `investments/<id>` and read by
`sellInvestment` (src/script.js lines 271-282): symbol, shares, cost price
per share, open date. -/
structure Position where
  symbol : String
  shares : ℚ
  price : ℚ
  date : String
  deriving DecidableEq

/-- The archived record pushed under `archivedTrades/<year>/<quarter>`
(src/script.js lines 298-306). -/
structure ArchivedTrade where
  symbol : String
  shares : ℚ
  buyPrice : ℚ
  sellPrice : ℚ
  buyDate : String
  sellDate : String
  pl : ℚ
  deriving DecidableEq

/-- Value of the longest leading digit run of a character list, `none` when
there is none. -/
def digitPrefixVal (cs : List Char) : Option Nat :=
  if (cs.takeWhile Char.isDigit).isEmpty then none
  else some ((cs.takeWhile Char.isDigit).foldl
    (fun acc c => acc * 10 + (c.toNat - 48)) 0)

/-- JavaScript `parseInt(s, 10)` on the strings this program feeds it: an
optional minus sign followed by the longest leading digit run; `none` models
the `NaN` result when no digits lead the string. -/
def jsParseInt (s : String) : Option Int :=
  match s.toList with
  | '-' :: rest => (digitPrefixVal rest).map (fun n => -(n : Int))
  | cs => (digitPrefixVal cs).map (fun n => (n : Int))

/-- Split a character list at every `/`, JavaScript `split("/")` semantics
(the empty string yields one empty field). -/
def splitCharsOn : List Char → List (List Char)
  | [] => [[]]
  | c :: rest =>
    if c = '/' then [] :: splitCharsOn rest
    else
      match splitCharsOn rest with
      | [] => [[c]]
      | h :: t => (c :: h) :: t

/-- `sellDateInput.split("/")`. -/
def splitSlash (s : String) : List String :=
  (splitCharsOn s.toList).map (fun l => String.mk l)

/-- `const [day, month, year] = sellDateInput.split("/").map(num =>
parseInt(num, 10))` (src/script.js line 285): a missing component
(`undefined`) and a `NaN` parse both surface as `none`. -/
def dateParts (s : String) : Option Int × Option Int × Option Int :=
  ((splitSlash s).map jsParseInt |>.getD 0 none,
   (splitSlash s).map jsParseInt |>.getD 1 none,
   (splitSlash s).map jsParseInt |>.getD 2 none)

/-- The quarter chain of src/script.js lines 288-292.  Every comparison
against a `NaN` month (`none`) is false in JavaScript, so the final `else`
makes it `Q4`; likewise for any month outside 1-9. -/
def quarterOf : Option Int → String
  | some m =>
    if 1 ≤ m ∧ m ≤ 3 then "Q1"
    else if 4 ≤ m ∧ m ≤ 6 then "Q2"
    else if 7 ≤ m ∧ m ≤ 9 then "Q3"
    else "Q4"
  | none => "Q4"

/-- One write issued against the document store by the sell flow. -/
inductive StoreOp where
  | pushArchive (year : Option Int) (quarter : String) (trade : ArchivedTrade)
  | removeInvestment (id : String)
  deriving DecidableEq

/-- The observable outcome of `sellInvestment`. -/
inductive SellOutcome where
  | notFound
  | invalidPrice
  | archived (year : Option Int) (quarter : String) (trade : ArchivedTrade)
  deriving DecidableEq

/-- `sellInvestment(id)` of src/script.js lines 268-313, with the two prompt
results as inputs: `sellPriceParsed` is the `parseFloat` of the first prompt
(`none` = `NaN`, the only rejected case), `sellDateInput` the raw second
prompt.  Returns the outcome and the ordered list of store writes issued:
on success the archive push (line 298) strictly before the investment
removal (line 309); on either early return, none. -/
def sellInvestment (investments : List (String × Position)) (id : String)
    (sellPriceParsed : Option ℚ) (sellDateInput : String) :
    SellOutcome × List StoreOp :=
  match lookupKey investments id with
  | none => (SellOutcome.notFound, [])
  | some inv =>
    match sellPriceParsed with
    | none => (SellOutcome.invalidPrice, [])
    | some sellPrice =>
      let pl := (sellPrice - inv.price) * inv.shares
      let year := (dateParts sellDateInput).2.2
      let quarter := quarterOf (dateParts sellDateInput).2.1
      let trade : ArchivedTrade :=
        ⟨inv.symbol, inv.shares, inv.price, sellPrice, inv.date, sellDateInput, pl⟩
      (SellOutcome.archived year quarter trade,
        [StoreOp.pushArchive year quarter trade, StoreOp.removeInvestment id])

/-- The parts of the document store the sell flow touches. -/
structure Store where
  investments : List (String × Position)
  archive : List ((Option Int × String) × ArchivedTrade)
  deriving DecidableEq

/-- Effect of one store write: `push` appends under the bucket path,
`remove` deletes the node `investments/<id>`. -/
def applyOp (s : Store) : StoreOp → Store
  | StoreOp.pushArchive y q t => { s with archive := s.archive ++ [((y, q), t)] }
  | StoreOp.removeInvestment id =>
      { s with investments := s.investments.filter (fun p => p.1 ≠ id) }

/-- The sell flow together with its effect on the store. -/
def runSell (s : Store) (id : String) (sellPriceParsed : Option ℚ)
    (sellDateInput : String) : SellOutcome × Store :=
  ((sellInvestment s.investments id sellPriceParsed sellDateInput).1,
   (sellInvestment s.investments id sellPriceParsed sellDateInput).2.foldl applyOp s)

theorem lookupKey_filter_ne {α : Type} (m : List (String × α)) (id : String) :
    lookupKey (m.filter (fun p => p.1 ≠ id)) id = none := by
  induction m with
  | nil => rfl
  | cons hd tl ih =>
    by_cases h : hd.1 = id
    · simpa [List.filter_cons, h] using ih
    · simpa [List.filter_cons, h, lookupKey, h] using ih

/-- C5: archiving an existing Position computes `pl = (sellPrice -
costPrice) * shares`, buckets the ArchivedTrade under the year and quarter
derived from the sell date, and deletes the Position, which afterwards no
longer exists in the store. -/
theorem sellInvestment_archives (store : Store) (id : String) (inv : Position)
    (p : ℚ) (d : String)
    (h : lookupKey store.investments id = some inv) :
    runSell store id (some p) d =
      (SellOutcome.archived (dateParts d).2.2 (quarterOf (dateParts d).2.1)
        ⟨inv.symbol, inv.shares, inv.price, p, inv.date, d,
          (p - inv.price) * inv.shares⟩,
       { investments := store.investments.filter (fun q => q.1 ≠ id),
         archive := store.archive ++
           [(((dateParts d).2.2, quarterOf (dateParts d).2.1),
             ⟨inv.symbol, inv.shares, inv.price, p, inv.date, d,
               (p - inv.price) * inv.shares⟩)] }) ∧
    lookupKey (store.investments.filter (fun q => q.1 ≠ id)) id = none := by
  constructor
  · simp [runSell, sellInvestment, h, applyOp]
  · exact lookupKey_filter_ne store.investments id

/-- C5 witness: the spec scenario — a Position with `shares = 10`,
`costPrice = 100` sold at price 120 on `15/11/2025` yields `pl = 200`,
bucketed at `2025/Q4`, and the Position is gone from the store. -/
theorem sellInvestment_archives_witness :
    runSell ⟨[("pos1", ⟨"AAPL", 10, 100, "01/06/2025"⟩)], []⟩
        "pos1" (some 120) "15/11/2025" =
      (SellOutcome.archived (some 2025) "Q4"
        ⟨"AAPL", 10, 100, 120, "01/06/2025", "15/11/2025", 200⟩,
       ⟨[], [((some 2025, "Q4"),
         ⟨"AAPL", 10, 100, 120, "01/06/2025", "15/11/2025", 200⟩)]⟩) := by
  have hd : dateParts "15/11/2025" = (some 15, some 11, some 2025) := by decide
  have h := (sellInvestment_archives
    ⟨[("pos1", ⟨"AAPL", 10, 100, "01/06/2025"⟩)], []⟩ "pos1"
    ⟨"AAPL", 10, 100, "01/06/2025"⟩ 120 "15/11/2025" (by simp [lookupKey])).1
  rw [h, hd]
  norm_num [quarterOf, List.filter]

/-- C6 (amended): the sell flow is a no-op on exactly the two checks the
code makes — a missing Position (silently) or a sell-price prompt whose
`parseFloat` is `NaN` (alerted); in both cases nothing is appended to the
archive and the Position is not deleted.  A parsed price that is negative,
zero or non-finite, or an unparseable sell date, is not rejected. -/
theorem sellInvestment_rejects (store : Store) (id : String)
    (pIn : Option ℚ) (d : String) :
    (lookupKey store.investments id = none →
      runSell store id pIn d = (SellOutcome.notFound, store)) ∧
    (∀ inv : Position, lookupKey store.investments id = some inv → pIn = none →
      runSell store id pIn d = (SellOutcome.invalidPrice, store)) := by
  constructor
  · intro h
    simp [runSell, sellInvestment, h]
  · intro inv h hp
    subst hp
    simp [runSell, sellInvestment, h]

/-- C6 witness: at concrete inputs, a sell against a missing Position id and
a sell whose price prompt did not parse both leave the store unchanged and
issue the corresponding outcome. -/
theorem sellInvestment_rejects_witness :
    runSell ⟨[], []⟩ "pos1" (some 120) "15/11/2025" =
      (SellOutcome.notFound, ⟨[], []⟩) ∧
    runSell ⟨[("pos1", ⟨"AAPL", 10, 100, "01/06/2025"⟩)], []⟩
        "pos1" none "15/11/2025" =
      (SellOutcome.invalidPrice,
        ⟨[("pos1", ⟨"AAPL", 10, 100, "01/06/2025"⟩)], []⟩) :=
  ⟨(sellInvestment_rejects ⟨[], []⟩ "pos1" (some 120) "15/11/2025").1 rfl,
   (sellInvestment_rejects ⟨[("pos1", ⟨"AAPL", 10, 100, "01/06/2025"⟩)], []⟩
     "pos1" none "15/11/2025").2 ⟨"AAPL", 10, 100, "01/06/2025"⟩ (by decide) rfl⟩

/-- C6 counterexample: the claim says a sell price that is not a positive
finite number is rejected with no store writes, but `parseFloat("-5") = -5`
is not `NaN`, so the code accepts it: the trade is archived (with `pl =
(-5 - 100) * 10 = -1050`) and the Position is deleted. -/
theorem sellInvestment_negative_price_accepted :
    runSell ⟨[("pos1", ⟨"AAPL", 10, 100, "01/06/2025"⟩)], []⟩
        "pos1" (some (-5)) "15/11/2025" =
      (SellOutcome.archived (some 2025) "Q4"
        ⟨"AAPL", 10, 100, -5, "01/06/2025", "15/11/2025", -1050⟩,
       ⟨[], [((some 2025, "Q4"),
         ⟨"AAPL", 10, 100, -5, "01/06/2025", "15/11/2025", -1050⟩)]⟩) := by
  have hd : dateParts "15/11/2025" = (some 15, some 11, some 2025) := by decide
  simp only [runSell, sellInvestment]
  norm_num [lookupKey, hd, quarterOf, applyOp, List.filter]

/-- C9: the quarter derivation maps parsed months 1-3, 4-6, 7-9 to Q1, Q2,
Q3 and every other month value — 10-12, out-of-range values, and the `NaN`
of an unparseable component — to Q4; and a sell date whose month does not
parse is not rejected: the trade is silently archived under a Q4 bucket with
whatever year value parsing produced, and the Position is deleted. -/
theorem quarterBucket_spec :
    (∀ m : Int, 1 ≤ m ∧ m ≤ 3 → quarterOf (some m) = "Q1") ∧
    (∀ m : Int, 4 ≤ m ∧ m ≤ 6 → quarterOf (some m) = "Q2") ∧
    (∀ m : Int, 7 ≤ m ∧ m ≤ 9 → quarterOf (some m) = "Q3") ∧
    (∀ m : Int, (10 ≤ m ∧ m ≤ 12) ∨ 12 < m ∨ m < 1 → quarterOf (some m) = "Q4") ∧
    quarterOf none = "Q4" ∧
    (∀ (store : Store) (id : String) (inv : Position) (p : ℚ) (d : String),
      lookupKey store.investments id = some inv →
      (dateParts d).2.1 = none →
      runSell store id (some p) d =
        (SellOutcome.archived (dateParts d).2.2 "Q4"
          ⟨inv.symbol, inv.shares, inv.price, p, inv.date, d,
            (p - inv.price) * inv.shares⟩,
         { investments := store.investments.filter (fun q => q.1 ≠ id),
           archive := store.archive ++
             [(((dateParts d).2.2, "Q4"),
               ⟨inv.symbol, inv.shares, inv.price, p, inv.date, d,
                 (p - inv.price) * inv.shares⟩)] })) := by
  refine ⟨?_, ?_, ?_, ?_, rfl, ?_⟩
  · intro m hm
    simp only [quarterOf]
    rw [if_pos hm]
  · intro m hm
    simp only [quarterOf]
    rw [if_neg (by omega), if_pos hm]
  · intro m hm
    simp only [quarterOf]
    rw [if_neg (by omega), if_neg (by omega), if_pos hm]
  · intro m hm
    simp only [quarterOf]
    rw [if_neg (by omega), if_neg (by omega), if_neg (by omega)]
  · intro store id inv p d h hm
    simp [runSell, sellInvestment, h, hm, applyOp, quarterOf]

/-- C9 witness: month 13 buckets at Q4, and a sell with the unparseable date
string `"soon"` archives at bucket `(NaN, Q4)` and deletes the Position. -/
theorem quarterBucket_spec_witness :
    quarterOf (some 13) = "Q4" ∧
    runSell ⟨[("pos1", ⟨"AAPL", 10, 100, "01/06/2025"⟩)], []⟩
        "pos1" (some 120) "soon" =
      (SellOutcome.archived none "Q4"
        ⟨"AAPL", 10, 100, 120, "01/06/2025", "soon", 200⟩,
       ⟨[], [((none, "Q4"),
         ⟨"AAPL", 10, 100, 120, "01/06/2025", "soon", 200⟩)]⟩) := by
  constructor
  · exact quarterBucket_spec.2.2.2.1 13 (Or.inr (Or.inl (by norm_num)))
  · have hd : dateParts "soon" = (none, none, none) := by decide
    have h := quarterBucket_spec.2.2.2.2.2
      ⟨[("pos1", ⟨"AAPL", 10, 100, "01/06/2025"⟩)], []⟩ "pos1"
      ⟨"AAPL", 10, 100, "01/06/2025"⟩ 120 "soon" (by simp [lookupKey])
      (by rw [hd])
    rw [h, hd]
    norm_num [List.filter]

/-- C10: the sell flow issues either no store write at all (missing
Position or `NaN` sell price — the store is then unchanged) or exactly the
two writes in order: the archive append strictly before the Position
removal.  No trace deletes a Position without its archive write preceding
it. -/
theorem sellInvestment_trace (store : Store) (id : String)
    (pIn : Option ℚ) (d : String) :
    ((sellInvestment store.investments id pIn d).2 = [] ∨
      ∃ y q t, (sellInvestment store.investments id pIn d).2 =
        [StoreOp.pushArchive y q t, StoreOp.removeInvestment id]) ∧
    (lookupKey store.investments id = none ∨ pIn = none →
      (runSell store id pIn d).2 = store) := by
  constructor
  · cases h : lookupKey store.investments id with
    | none =>
      left
      simp [sellInvestment, h]
    | some inv =>
      cases pIn with
      | none =>
        left
        simp [sellInvestment, h]
      | some p =>
        right
        exact ⟨(dateParts d).2.2, quarterOf (dateParts d).2.1,
          ⟨inv.symbol, inv.shares, inv.price, p, inv.date, d,
            (p - inv.price) * inv.shares⟩, by simp [sellInvestment, h]⟩
  · rintro (h | rfl)
    · simp [runSell, sellInvestment, h]
    · cases h2 : lookupKey store.investments id with
      | none => simp [runSell, sellInvestment, h2]
      | some inv => simp [runSell, sellInvestment, h2]

/-- C10 witness: with a missing Position id the trace is empty and the store
is unchanged. -/
theorem sellInvestment_trace_witness :
    (sellInvestment ([] : List (String × Position)) "pos1" (some 120)
      "15/11/2025").2 = [] ∧
    (runSell ⟨[], []⟩ "pos1" (some 120) "15/11/2025").2 = ⟨[], []⟩ :=
  ⟨by decide,
   (sellInvestment_trace ⟨[], []⟩ "pos1" (some 120) "15/11/2025").2 (Or.inl rfl)⟩

/-- The benchmark portion of the part_002 cycle (src/unnamed/part_002 lines
99-178): with a null `investments` record the whole benchmark cache is reset
to zeros and the cycle returns (lines 110-125); otherwise prices are fetched
into a fresh cache keeping only positive results (lines 132-137) and both
anchors are computed by the guards of lines 160-176 (both dividing by
`totalInvested`; keys `05-10-2025` and `14-07-2025`). -/
def runBenchmarksPart002 (invs : List Investment) (realizedPLs : List (Option ℚ))
    (inceptionCache : List (String × ℚ)) (fetch : String → ℚ) : BenchmarkCache :=
  if invs.isEmpty then ⟨⟨0, 0⟩, ⟨0, 0⟩⟩
  else
    benchmarkCalcPart002 (totalInvestedOf invs)
      (currentValueOf invs (mergePrices [] (symbolsWithSPY invs) fetch) -
        totalInvestedOf invs)
      (totalRealizedPLOf realizedPLs +
        (currentValueOf invs (mergePrices [] (symbolsWithSPY invs) fetch) -
          totalInvestedOf invs))
      ((lookupKey inceptionCache "05-10-2025").getD 0)
      ((lookupKey inceptionCache "14-07-2025").getD 0)
      ((lookupKey (mergePrices [] (symbolsWithSPY invs) fetch) "SPY").getD 0)

/-- C7 counterexample: in the part_002 cycle, zero open positions reset the
all-time anchor to `{0,0}` as well, even with an archived realized P&L of
100, a cached all-time start price of 400 and a live benchmark quote of
450 — the all-time anchor is not computed from the archived history there,
contradicting the claim. -/
theorem runBenchmarksPart002_empty_counterexample :
    runBenchmarksPart002 [] [some 100]
      [(("14-07-2025" : String), (400 : ℚ))] (fun _ => 450) =
      ⟨⟨0, 0⟩, ⟨0, 0⟩⟩ ∧
    totalRealizedPLOf [some 100] = 100 := by
  constructor
  · rfl
  · norm_num [totalRealizedPLOf]
